import Mathlib

/-!
Verification development for the walkie daemon (src/daemon.js, class
WalkieDaemon).  The daemon's in-process coordination logic is shallowly
embedded: the channel registry, peer registry, message router, IPC command
dispatch and the blocking-read timers are modelled as a pure state-transition
system.  External collaborators (the scrypt topic-derivation primitive and
JSON line parsing of the peer wire protocol) are parameters of the transition
function, exactly as the spec scopes them out (§1).  Machine integers do not
overflow in the source (lengths and counters only), so Nat is used directly.
-/

namespace Walkie

/-- MAX_MESSAGE_SIZE = 256 * 1024 (daemon.js line 15). -/
def MAX_MESSAGE_SIZE : Nat := 256 * 1024

/-- MAX_PEER_BUFFER = 1024 * 1024 (daemon.js line 14). -/
def MAX_PEER_BUFFER : Nat := 1024 * 1024

/-- A routed message entry `{ from, data, ts }` (daemon.js line 292).
`origin` stands for the JS field `from` (a Lean keyword); the payload is the
byte sequence of the JS string `data`. -/
structure MessageEntry where
  origin : String
  data : List Nat
  ts : Nat
deriving DecidableEq, Repr

/-- A parsed peer wire record (newline-delimited JSON): `hello` and `msg`
records (daemon.js lines 269, 283); `other` stands for a record that parses
but has an unrecognized `t`, which the handler ignores. -/
inductive WireMsg where
  | hello (topics : List String) (senderId : String)
  | msg (topic : String) (data : List Nat) (senderId : String) (ts : Nat)
  | other
deriving DecidableEq, Repr

/-- A reply written back on the requesting IPC socket, keyed in the model by
the request id of the command that produced it. -/
inductive Reply where
  | okChannel (channel : String)
  | okDelivered (n : Nat)
  | okMessages (msgs : List MessageEntry)
  | ok
  | err (message : String)
deriving DecidableEq, Repr

/-- A channel registry entry (daemon.js lines 187-193).  `uid` models JS
object identity of the channel record (timer callbacks capture the object,
not the name); `peers` is the matched-peer set in insertion order, `messages`
the pending FIFO buffer, `waiters` the suspended read requests (request ids)
in registration order. -/
structure Channel where
  topicHex : String
  uid : Nat
  peers : List String
  messages : List MessageEntry
  waiters : List Nat
deriving DecidableEq, Repr

/-- A peer registry entry (daemon.js line 231): `writable` models
`conn.writable` of the underlying stream, `channels` the matched topic-hex
8-character keys, `buf` the unparsed inbound bytes, `knownTopics` the set
announced by the peer's last hello (absent until the first hello). -/
structure PeerState where
  writable : Bool
  channels : List String
  buf : List Nat
  knownTopics : Option (List String)
deriving DecidableEq, Repr

/-- A pending read-timeout timer (daemon.js lines 133-136): the suspended
request it would resolve, the captured channel object (by uid), and the
setTimeout duration in milliseconds. -/
structure Timer where
  reqId : Nat
  chUid : Nat
  duration : Nat
deriving DecidableEq, Repr

/-- The daemon state: the channel registry (name-keyed, insertion ordered,
as a JS Map) and peer registry, plus observation logs: `replies` records
every IPC reply keyed by request id, `sent` every frame written to a peer
connection, `meshJoins`/`meshLeft` every swarm.join / discovery.destroy
call (the mesh substrate is external). -/
structure DaemonState where
  id : String
  channels : List (String × Channel)
  peers : List (String × PeerState)
  timers : List Timer
  nextUid : Nat
  replies : List (Nat × Reply)
  sent : List (String × WireMsg)
  meshJoins : List String
  meshLeft : List String
deriving DecidableEq, Repr

/-- Association-list lookup, modelling `Map.get` (first and, in reachable
states, only binding of the key). -/
def lookupA {α : Type} : List (String × α) → String → Option α
  | [], _ => none
  | (k, v) :: rest, key => if k = key then some v else lookupA rest key

/-- `Map.set`: replace the existing binding in place, else append. -/
def setA {α : Type} : List (String × α) → String → α → List (String × α)
  | [], key, v => [(key, v)]
  | (k, w) :: rest, key, v =>
    if k = key then (key, v) :: rest else (k, w) :: setA rest key v

/-- `Map.delete`. -/
def delA {α : Type} : List (String × α) → String → List (String × α)
  | [], _ => []
  | (k, v) :: rest, key =>
    if k = key then delA rest key else (k, v) :: delA rest key

/-- Update the (first) binding of a key in place, modelling in-place mutation
of the object stored in a JS Map. -/
def updA {α : Type} : List (String × α) → String → (α → α) → List (String × α)
  | [], _, _ => []
  | (k, v) :: rest, key, f =>
    if k = key then (k, f v) :: rest else (k, v) :: updA rest key f

/-- Update the channel record with the given object identity (uid), modelling
mutation through a captured reference (timer callbacks). -/
def updByUid (u : Nat) (f : Channel → Channel) :
    List (String × Channel) → List (String × Channel)
  | [] => []
  | (n, ch) :: rest =>
    if ch.uid = u then (n, f ch) :: rest else (n, ch) :: updByUid u f rest

/-- JS Set.add on an insertion-ordered list. -/
def addIfAbsent (x : String) (l : List String) : List String :=
  if x ∈ l then l else l ++ [x]

/-- Hello-record topic matching (daemon.js lines 273-279 and 207-213): for
every local channel whose topic the peer announced and that does not yet hold
the peer, add the peer to the channel's `peers`; returns the updated registry
together with the topic keys (`topicHex.slice(0, 8)`) newly matched, to be
added to the peer's `channels` set. -/
def matchTopics (rk : String) (kts : List String) :
    List (String × Channel) → List (String × Channel) × List String
  | [] => ([], [])
  | (n, ch) :: rest =>
    let res := matchTopics rk kts rest
    if ch.topicHex ∈ kts ∧ rk ∉ ch.peers then
      ((n, { ch with peers := ch.peers ++ [rk] }) :: res.1,
        (ch.topicHex.take 8) :: res.2)
    else
      ((n, ch) :: res.1, res.2)

/-- Apply `matchTopics` for one peer and record the matches on the peer's
`channels` set. -/
def applyMatches (s : DaemonState) (rk : String) (kts : List String) :
    DaemonState :=
  let res := matchTopics rk kts s.channels
  { s with
      channels := res.1,
      peers := updA s.peers rk (fun p =>
        { p with channels := res.2.foldl (fun cs x => addIfAbsent x cs) p.channels }) }

/-- One iteration of `_reannounce` (daemon.js lines 201-215): write the hello
frame to the peer if its connection is writable, then (independently of
writability) late-match every channel against the peer's known topics. -/
def reannounceOne (hello : WireMsg) (s : DaemonState) (rk : String) :
    DaemonState :=
  match lookupA s.peers rk with
  | none => s
  | some p =>
    let s1 := if p.writable then { s with sent := s.sent ++ [(rk, hello)] } else s
    match p.knownTopics with
    | some kts => applyMatches s1 rk kts
    | none => s1

/-- `_reannounce` (daemon.js lines 198-216): snapshot the topic list, build
the hello frame, and iterate over all peers. -/
def reannounce (s : DaemonState) : DaemonState :=
  let hello := WireMsg.hello (s.channels.map (fun q => q.2.topicHex)) s.id
  (s.peers.map Prod.fst).foldl (reannounceOne hello) s

/-- `_joinChannel` (daemon.js lines 177-196): no-op when the name is already
joined; otherwise derive the topic (external primitive `dt`), register it
with the mesh (logged in `meshJoins`; the `await discovery.flushed()`
suspension resumes with no state effect), create the Channel entry, and
re-announce.  `dt` is the external scrypt-based `deriveTopic` of
src/crypto.js (out of scope per spec §1). -/
def joinChannel (dt : String → String → String) (s : DaemonState)
    (name secret : String) : DaemonState :=
  if (lookupA s.channels name).isSome then s
  else
    let topic := dt name secret
    let ch : Channel :=
      { topicHex := topic, uid := s.nextUid, peers := [], messages := [], waiters := [] }
    let s1 : DaemonState :=
      { s with
          meshJoins := s.meshJoins ++ [topic],
          channels := setA s.channels name ch,
          nextUid := s.nextUid + 1 }
    reannounce s1

/-- `_leaveChannel` (daemon.js lines 218-223): destroy the discovery handle
(logged in `meshLeft`) and delete the Channel entry.  Waiters and their
timers are not touched. -/
def leaveChannel (s : DaemonState) (name : String) : DaemonState :=
  match lookupA s.channels name with
  | none => s
  | some ch =>
    { s with
        meshLeft := s.meshLeft ++ [ch.topicHex],
        channels := delA s.channels name }

/-- The matched peers whose connections are currently writable, in channel
insertion order (`peer?.conn?.writable` test of daemon.js lines 321-326). -/
def sendTargets (peers : List (String × PeerState)) : List String → List String
  | [] => []
  | rk :: rest =>
    match lookupA peers rk with
    | some p => if p.writable then rk :: sendTargets peers rest
                else sendTargets peers rest
    | none => sendTargets peers rest

/-- `_send` (daemon.js lines 308-329): `none` models the thrown
`Not in channel` error; otherwise writes the msg envelope to every matched
writable peer and returns the count written. -/
def sendMsg (s : DaemonState) (name : String) (message : List Nat)
    (now : Nat) : Option (DaemonState × Nat) :=
  match lookupA s.channels name with
  | none => none
  | some ch =>
    let payload := WireMsg.msg ch.topicHex message s.id now
    let tgts := sendTargets s.peers ch.peers
    some ({ s with sent := s.sent ++ tgts.map (fun rk => (rk, payload)) },
      tgts.length)

/-- Build the routed entry `{ from: msg.id || remoteKey.slice(0,8), data, ts }`
(daemon.js line 292); a falsy (empty) sender id falls back to the key. -/
def mkEntry (rk senderId : String) (data : List Nat) (ts : Nat) : MessageEntry :=
  { origin := if senderId = "" then rk.take 8 else senderId, data := data, ts := ts }

/-- Inbound routing scan (daemon.js lines 290-302): find the first channel
whose topic matches; hand the entry to the oldest waiter when one exists
(returning its request id), otherwise append it to the buffer. -/
def routeFirst (topic : String) (entry : MessageEntry) :
    List (String × Channel) → List (String × Channel) × Option Nat
  | [] => ([], none)
  | (n, ch) :: rest =>
    if ch.topicHex = topic then
      match ch.waiters with
      | w :: ws => ((n, { ch with waiters := ws }) :: rest, some w)
      | [] => ((n, { ch with messages := ch.messages ++ [entry] }) :: rest, none)
    else
      let res := routeFirst topic entry rest
      ((n, ch) :: res.1, res.2)

/-- Remove the (first) pending timer of a request, modelling `clearTimeout`
on the timer captured by that request's waiter closure. -/
def eraseTimer (r : Nat) : List Timer → List Timer
  | [] => []
  | t :: rest => if t.reqId = r then rest else t :: eraseTimer r rest

/-- The pending timer of a request, if still active. -/
def findTimer (r : Nat) : List Timer → Option Timer
  | [] => none
  | t :: rest => if t.reqId = r then some t else findTimer r rest

/-- The msg-record branch of `_onPeerMsg` past the size check (daemon.js
lines 290-302): route the entry; resolving a waiter clears that request's
timer (the waiter closure runs `clearTimeout`) and replies with the single
entry. -/
def routeInbound (s : DaemonState) (rk topic : String) (data : List Nat)
    (senderId : String) (ts : Nat) : DaemonState :=
  let entry := mkEntry rk senderId data ts
  let res := routeFirst topic entry s.channels
  match res.2 with
  | some w =>
    { s with
        channels := res.1,
        timers := eraseTimer w s.timers,
        replies := s.replies ++ [(w, Reply.okMessages [entry])] }
  | none => { s with channels := res.1 }

/-- `_onPeerMsg` (daemon.js lines 265-304): ignore records from unknown
peers; a hello replaces `knownTopics` and runs topic matching; a msg record
with oversized `data` is dropped, otherwise routed; unknown record types are
ignored. -/
def onPeerMsg (s : DaemonState) (rk : String) (m : WireMsg) : DaemonState :=
  match lookupA s.peers rk with
  | none => s
  | some _ =>
    match m with
    | WireMsg.hello topics _ =>
      let s1 : DaemonState :=
        { s with peers := updA s.peers rk (fun p => { p with knownTopics := some topics }) }
      applyMatches s1 rk topics
    | WireMsg.msg topic data senderId ts =>
      if data.length > MAX_MESSAGE_SIZE then s
      else routeInbound s rk topic data senderId ts
    | WireMsg.other => s

/-- Split a byte buffer at newline bytes into the complete lines and the
unparsed remainder (the `while ((idx = buf.indexOf('\n')) ...)` loop of
daemon.js lines 247-254). -/
def splitLines : List Nat → List (List Nat) × List Nat
  | [] => ([], [])
  | b :: rest =>
    if b = 10 then
      let res := splitLines rest
      ([] :: res.1, res.2)
    else
      match splitLines rest with
      | ([], r) => ([], b :: r)
      | (l :: ls, r) => ((b :: l) :: ls, r)

/-- A line that `line.trim()` reduces to the empty string (whitespace only);
such lines are skipped. -/
def isBlank (line : List Nat) : Bool :=
  line.all (fun b => b == 32 || b == 9 || b == 13)

/-- Process the complete lines of a peer's inbound buffer in order: blank
lines are skipped, lines whose JSON parse fails (`dec` returns none) are
dropped by the catch, parsed records go to `_onPeerMsg`. -/
def processLines (dec : List Nat → Option WireMsg) (rk : String)
    (s : DaemonState) : List (List Nat) → DaemonState
  | [] => s
  | line :: rest =>
    if isBlank line then processLines dec rk s rest
    else
      match dec line with
      | some m => processLines dec rk (onPeerMsg s rk m) rest
      | none => processLines dec rk s rest

/-- The connection-close handler (daemon.js lines 257-260), also reached via
`conn.destroy()`: remove the peer from every channel's matched set and delete
the Peer entry. -/
def closePeer (s : DaemonState) (rk : String) : DaemonState :=
  { s with
      channels := s.channels.map (fun q =>
        (q.1, { q.2 with peers := q.2.peers.filter (fun x => x ≠ rk) })),
      peers := delA s.peers rk }

/-- The data handler of `_onPeer` (daemon.js lines 237-255): append the chunk
to the peer's unparsed buffer; if the buffer exceeds MAX_PEER_BUFFER the
connection is destroyed (running the close handler); otherwise the complete
lines are split off and processed.  `dec` is the external JSON parse of one
wire line. -/
def onPeerData (dec : List Nat → Option WireMsg) (s : DaemonState)
    (rk : String) (chunk : List Nat) : DaemonState :=
  match lookupA s.peers rk with
  | none => s
  | some p =>
    let buf := p.buf ++ chunk
    if buf.length > MAX_PEER_BUFFER then closePeer s rk
    else
      let res := splitLines buf
      let s1 : DaemonState :=
        { s with peers := updA s.peers rk (fun q => { q with buf := res.2 }) }
      processLines dec rk s1 res.1

/-- New-connection handler `_onPeer` (daemon.js lines 227-235): create the
Peer entry and immediately write a hello frame listing all joined topics. -/
def onPeerConnect (s : DaemonState) (rk : String) : DaemonState :=
  let p : PeerState := { writable := true, channels := [], buf := [], knownTopics := none }
  let hello := WireMsg.hello (s.channels.map (fun q => q.2.topicHex)) s.id
  { s with peers := setA s.peers rk p, sent := s.sent ++ [(rk, hello)] }

/-- The read-timeout callback (daemon.js lines 133-136), firing only while
the timer is still pending: remove the waiter from the captured channel's
queue and reply with an empty message list. -/
def fireTimer (s : DaemonState) (r : Nat) : DaemonState :=
  match findTimer r s.timers with
  | none => s
  | some t =>
    { s with
        timers := eraseTimer r s.timers,
        channels := updByUid t.chUid
          (fun ch => { ch with waiters := ch.waiters.filter (fun w => w ≠ r) }) s.channels,
        replies := s.replies ++ [(r, Reply.okMessages [])] }

/-- `(cmd.timeout || 30) * 1000` (daemon.js line 132): an absent (or zero,
i.e. falsy) timeout defaults to 30 seconds. -/
def timeoutMs : Option Nat → Nat
  | none => 30 * 1000
  | some t => (if t = 0 then 30 else t) * 1000

/-- The read case of `_exec` (daemon.js lines 123-143): unknown channel fails
with `Not in channel`; a non-empty buffer or a non-waiting caller drains the
whole buffer immediately (`splice(0)`); otherwise a waiter is registered
together with its timeout timer and no reply is sent yet. -/
def execRead (s : DaemonState) (r : Nat) (c : String) (wait : Bool)
    (tmo : Option Nat) : DaemonState :=
  match lookupA s.channels c with
  | none => { s with replies := s.replies ++ [(r, Reply.err ("Not in channel: " ++ c))] }
  | some ch =>
    if ch.messages.length > 0 ∨ wait = false then
      { s with
          channels := updA s.channels c (fun x => { x with messages := [] }),
          replies := s.replies ++ [(r, Reply.okMessages ch.messages)] }
    else
      { s with
          timers := s.timers ++ [{ reqId := r, chUid := ch.uid, duration := timeoutMs tmo }],
          channels := updA s.channels c (fun x => { x with waiters := x.waiters ++ [r] }) }

/-- The send case of `_exec` past the size check (daemon.js lines 119-120):
the thrown `Not in channel` error is converted to an error reply by the
dispatch catch; success replies with the delivered count. -/
def execSend (s : DaemonState) (r : Nat) (c : String) (message : List Nat)
    (now : Nat) : DaemonState :=
  match sendMsg s c message now with
  | none => { s with replies := s.replies ++ [(r, Reply.err ("Not in channel: " ++ c))] }
  | some sc => { sc.1 with replies := sc.1.replies ++ [(r, Reply.okDelivered sc.2)] }

/-- An event of the daemon's single-threaded event loop: the four
state-mutating IPC commands of `_exec` (each carrying its request id; `send`
carries the `Date.now()` reading), the mesh connection events, a change of a
connection's writability, and the firing of a pending read timer.  The
`status` and `ping` commands are pure snapshots and mutate nothing. -/
inductive Event where
  | join (reqId : Nat) (channel secret : String)
  | send (reqId : Nat) (channel : String) (message : List Nat) (now : Nat)
  | read (reqId : Nat) (channel : String) (wait : Bool) (timeout : Option Nat)
  | leave (reqId : Nat) (channel : String)
  | peerConnect (rk : String)
  | peerData (rk : String) (chunk : List Nat)
  | peerClose (rk : String)
  | setWritable (rk : String) (w : Bool)
  | timerFire (reqId : Nat)
deriving DecidableEq, Repr

/-- One step of the daemon's event loop: the `_exec` dispatch (daemon.js
lines 103-173) for IPC commands — the send case checks the message size
before anything else (line 115) — and the peer/timer handlers. -/
def step (dt : String → String → String) (dec : List Nat → Option WireMsg)
    (s : DaemonState) : Event → DaemonState
  | Event.join r name secret =>
    let s1 := joinChannel dt s name secret
    { s1 with replies := s1.replies ++ [(r, Reply.okChannel name)] }
  | Event.send r c message now =>
    if message.length > MAX_MESSAGE_SIZE then
      { s with replies := s.replies ++ [(r, Reply.err "Message too large (max 256KB)")] }
    else execSend s r c message now
  | Event.read r c wait tmo => execRead s r c wait tmo
  | Event.leave r name =>
    let s1 := leaveChannel s name
    { s1 with replies := s1.replies ++ [(r, Reply.ok)] }
  | Event.peerConnect rk => onPeerConnect s rk
  | Event.peerData rk chunk => onPeerData dec s rk chunk
  | Event.peerClose rk => closePeer s rk
  | Event.setWritable rk w =>
    { s with peers := updA s.peers rk (fun p => { p with writable := w }) }
  | Event.timerFire r => fireTimer s r

/-- Run a sequence of events from a state. -/
def run (dt : String → String → String) (dec : List Nat → Option WireMsg)
    (s : DaemonState) (evs : List Event) : DaemonState :=
  evs.foldl (step dt dec) s

/-- The freshly started daemon (constructor, daemon.js lines 23-28). -/
def initState (id : String) : DaemonState :=
  { id := id, channels := [], peers := [], timers := [], nextUid := 0,
    replies := [], sent := [], meshJoins := [], meshLeft := [] }

/-- A sample topic-derivation function standing in for the external scrypt
primitive in concrete evaluations. -/
def dt0 : String → String → String := fun n s => n ++ "/" ++ s

/-- A sample wire-line parser for concrete evaluations. -/
def dec0 : List Nat → Option WireMsg := fun _ => none

/-! ### Helper lemmas -/

theorem lookupA_updA_self {α : Type} (l : List (String × α)) (k : String)
    (f : α → α) (v : α) (h : lookupA l k = some v) :
    lookupA (updA l k f) k = some (f v) := by
  induction l with
  | nil => simp [lookupA] at h
  | cons q rest ih =>
    obtain ⟨k', w⟩ := q
    by_cases hk : k' = k
    · subst hk
      simp [lookupA] at h
      simp [updA, lookupA, h]
    · simp [lookupA, hk] at h
      simp [updA, lookupA, hk, ih h]

theorem join_existing (dt : String → String → String)
    (dec : List Nat → Option WireMsg) (s : DaemonState) (r : Nat)
    (name secret : String) (h : (lookupA s.channels name).isSome) :
    step dt dec s (Event.join r name secret) =
      { s with replies := s.replies ++ [(r, Reply.okChannel name)] } := by
  simp [step, joinChannel, h]

/-! ### Claim theorems -/

/-- C1 witnessed at a concrete run: after `join "room"` and a suspended
`read` (request 1), the `leave "room"` command removes the channel and
replies ok to itself, but produces no reply at all for the suspended reader:
its timer is still pending, and only that timer's later firing resolves it
with an empty list.  The code merely waits for the waiter's timeout instead
of resolving it at leave time. -/
theorem C1_leave_does_not_resolve_waiters :
    (let sA := run dt0 dec0 (initState "d")
        [Event.join 0 "room" "s", Event.read 1 "room" true none]
     let sB := step dt0 dec0 sA (Event.leave 2 "room")
     lookupA sA.channels "room" =
        some { topicHex := "room/s", uid := 0, peers := [], messages := [], waiters := [1] }
      ∧ lookupA sB.channels "room" = none
      ∧ sB.replies = [(0, Reply.okChannel "room"), (2, Reply.ok)]
      ∧ sB.timers = [{ reqId := 1, chUid := 0, duration := 30000 }]
      ∧ (fireTimer sB 1).replies = sB.replies ++ [(1, Reply.okMessages [])]) := by
  refine ⟨rfl, rfl, rfl, rfl, rfl⟩

/-- C4: joining an already-present channel name is a no-op: it only appends
the success reply; the channel registry (size, topics, matched peers,
buffers, waiters), the mesh-registration log and the sent-frame log are all
unchanged, and no topic is derived (the result does not depend on `dt` or on
the secret). -/
theorem C4_join_idempotent (dt : String → String → String)
    (dec : List Nat → Option WireMsg) (s : DaemonState) (r : Nat)
    (name secret : String) (ch : Channel)
    (h : lookupA s.channels name = some ch) :
    step dt dec s (Event.join r name secret) =
      { s with replies := s.replies ++ [(r, Reply.okChannel name)] } ∧
    (step dt dec s (Event.join r name secret)).channels = s.channels ∧
    (step dt dec s (Event.join r name secret)).meshJoins = s.meshJoins := by
  have hs : (lookupA s.channels name).isSome := by simp [h]
  refine ⟨join_existing dt dec s r name secret hs, ?_, ?_⟩ <;>
    rw [join_existing dt dec s r name secret hs]

/-- A concrete daemon state that has joined "room" with secret "s", used to
instantiate hypotheses of the claim theorems. -/
def sRoom : DaemonState := run dt0 dec0 (initState "d") [Event.join 0 "room" "s"]

/-- The channel record held by `sRoom`. -/
def chRoom : Channel :=
  { topicHex := "room/s", uid := 0, peers := [], messages := [], waiters := [] }

/-- C4 witness: a concrete daemon that joined "room"; re-joining changes
nothing but the reply log. -/
theorem C4_join_idempotent_witness :
    step dt0 dec0 sRoom (Event.join 7 "room" "s") =
      { sRoom with replies := sRoom.replies ++ [(7, Reply.okChannel "room")] } :=
  (C4_join_idempotent dt0 dec0 sRoom 7 "room" "s" chRoom rfl).1

/-- C10: a join on an already-present channel name never examines the
supplied secret: whatever secret is supplied (and whatever the derivation
function is), the outcome is the same success reply `{ok:true, channel}`,
and the channel keeps the topic derived from the original secret. -/
theorem C10_rejoin_ignores_secret (dt dt' : String → String → String)
    (dec : List Nat → Option WireMsg) (s : DaemonState) (r : Nat)
    (name secret secret' : String) (ch : Channel)
    (h : lookupA s.channels name = some ch) :
    step dt dec s (Event.join r name secret) =
      step dt' dec s (Event.join r name secret') ∧
    step dt dec s (Event.join r name secret) =
      { s with replies := s.replies ++ [(r, Reply.okChannel name)] } ∧
    lookupA (step dt dec s (Event.join r name secret)).channels name = some ch := by
  have hs : (lookupA s.channels name).isSome := by simp [h]
  refine ⟨?_, join_existing dt dec s r name secret hs, ?_⟩
  · rw [join_existing dt dec s r name secret hs,
      join_existing dt' dec s r name secret' hs]
  · rw [join_existing dt dec s r name secret hs]
    exact h

/-- C10 witness: re-joining "room" with a different secret on a daemon keyed
by secret "s" still succeeds and leaves the topic "room/s" in place. -/
theorem C10_rejoin_ignores_secret_witness :
    lookupA (step dt0 dec0 sRoom (Event.join 7 "room" "other-secret")).channels "room" =
      some chRoom :=
  (C10_rejoin_ignores_secret dt0 dt0 dec0 sRoom 7 "room" "other-secret" "zz"
    chRoom rfl).2.2

/-- C8: an oversized send is rejected with the size error before the
channel-membership check: even on a channel that is not joined, the reply is
`Message too large`, not `Not in channel`, and nothing else changes. -/
theorem C8_size_check_first (dt : String → String → String)
    (dec : List Nat → Option WireMsg) (s : DaemonState) (r : Nat)
    (c : String) (m : List Nat) (now : Nat)
    (_habs : lookupA s.channels c = none)
    (hbig : m.length > MAX_MESSAGE_SIZE) :
    step dt dec s (Event.send r c m now) =
      { s with replies := s.replies ++ [(r, Reply.err "Message too large (max 256KB)")] } := by
  simp [step, hbig]

/-- C8 witness: an oversized payload sent to the never-joined channel "x" on
a fresh daemon yields the size error, not the membership error. -/
theorem C8_size_check_first_witness :
    step dt0 dec0 (initState "d") (Event.send 3 "x" (List.replicate 262145 0) 9) =
      { initState "d" with
          replies := [(3, Reply.err "Message too large (max 256KB)")] } :=
  C8_size_check_first dt0 dec0 (initState "d") 3 "x" (List.replicate 262145 0) 9
    rfl (by rw [List.length_replicate]; norm_num [MAX_MESSAGE_SIZE])

/-- C5: a send on a channel not in the registry fails with the
`Not in channel` error whatever the peer state; on a joined channel it
replies with the number of matched, writable peers actually written to (the
envelope is logged to `sent` for exactly those peers); with zero matched
peers this is the successful reply `delivered: 0`. -/
theorem C5_send_semantics (dt : String → String → String)
    (dec : List Nat → Option WireMsg) (s : DaemonState) (r : Nat)
    (c : String) (m : List Nat) (now : Nat)
    (hsize : m.length ≤ MAX_MESSAGE_SIZE) :
    (lookupA s.channels c = none →
      step dt dec s (Event.send r c m now) =
        { s with replies := s.replies ++ [(r, Reply.err ("Not in channel: " ++ c))] }) ∧
    (∀ ch, lookupA s.channels c = some ch →
      step dt dec s (Event.send r c m now) =
        { s with
            sent := s.sent ++ (sendTargets s.peers ch.peers).map
              (fun rk => (rk, WireMsg.msg ch.topicHex m s.id now)),
            replies := s.replies ++
              [(r, Reply.okDelivered (sendTargets s.peers ch.peers).length)] }) ∧
    (∀ ch, lookupA s.channels c = some ch → ch.peers = [] →
      step dt dec s (Event.send r c m now) =
        { s with replies := s.replies ++ [(r, Reply.okDelivered 0)] }) := by
  have hns : ¬ m.length > MAX_MESSAGE_SIZE := by omega
  refine ⟨fun h => ?_, fun ch h => ?_, fun ch h hp => ?_⟩
  · simp [step, hns, execSend, sendMsg, h]
  · simp [step, hns, execSend, sendMsg, h]
  · simp [step, hns, execSend, sendMsg, h, hp, sendTargets]

/-- C5 witness: on the concrete daemon `sRoom` (joined "room", no peers), a
send to "room" succeeds with `delivered: 0`, and a send to the non-joined
"other" fails with the membership error. -/
theorem C5_send_semantics_witness :
    step dt0 dec0 sRoom (Event.send 4 "room" [104, 105] 77) =
      { sRoom with replies := sRoom.replies ++ [(4, Reply.okDelivered 0)] } ∧
    step dt0 dec0 sRoom (Event.send 5 "other" [104, 105] 77) =
      { sRoom with replies := sRoom.replies ++ [(5, Reply.err ("Not in channel: " ++ "other"))] } :=
  ⟨(C5_send_semantics dt0 dec0 sRoom 4 "room" [104, 105] 77 (by norm_num [MAX_MESSAGE_SIZE])).2.2
      chRoom rfl rfl,
   (C5_send_semantics dt0 dec0 sRoom 5 "other" [104, 105] 77 (by norm_num [MAX_MESSAGE_SIZE])).1
      rfl⟩

/-- C6: a read on a non-existent channel fails with `Not in channel`; on an
existing channel whose buffer is non-empty, or when the caller did not ask to
wait, it replies immediately with the entire buffer in order (an empty list
being a valid success reply) and leaves the buffer drained. -/
theorem C6_read_immediate (dt : String → String → String)
    (dec : List Nat → Option WireMsg) (s : DaemonState) (r : Nat)
    (c : String) (wait : Bool) (tmo : Option Nat) :
    (lookupA s.channels c = none →
      step dt dec s (Event.read r c wait tmo) =
        { s with replies := s.replies ++ [(r, Reply.err ("Not in channel: " ++ c))] }) ∧
    (∀ ch, lookupA s.channels c = some ch → (ch.messages ≠ [] ∨ wait = false) →
      step dt dec s (Event.read r c wait tmo) =
        { s with
            channels := updA s.channels c (fun x => { x with messages := [] }),
            replies := s.replies ++ [(r, Reply.okMessages ch.messages)] } ∧
      lookupA (step dt dec s (Event.read r c wait tmo)).channels c =
        some { ch with messages := [] }) := by
  refine ⟨fun h => ?_, fun ch h hcond => ?_⟩
  · simp [step, execRead, h]
  · have hcond' : ch.messages.length > 0 ∨ wait = false := by
      rcases hcond with h1 | h2
      · exact Or.inl (by cases hm : ch.messages with
          | nil => exact absurd hm h1
          | cons a l => simp [hm])
      · exact Or.inr h2
    constructor
    · simp [step, execRead, h, hcond']
    · have := lookupA_updA_self s.channels c (fun x => { x with messages := [] }) ch h
      simp [step, execRead, h, hcond', this]

/-- C6 witness: on the concrete daemon `sRoom` with its empty buffer, a
non-waiting read of "room" replies with the empty list and a read of the
non-joined "other" fails with the membership error. -/
theorem C6_read_immediate_witness :
    step dt0 dec0 sRoom (Event.read 4 "room" false none) =
      { sRoom with
          channels := updA sRoom.channels "room" (fun x => { x with messages := [] }),
          replies := sRoom.replies ++ [(4, Reply.okMessages [])] } ∧
    step dt0 dec0 sRoom (Event.read 5 "other" false none) =
      { sRoom with replies := sRoom.replies ++ [(5, Reply.err ("Not in channel: " ++ "other"))] } :=
  ⟨((C6_read_immediate dt0 dec0 sRoom 4 "room" false none).2
      chRoom rfl (Or.inr rfl)).1,
   (C6_read_immediate dt0 dec0 sRoom 5 "other" false none).1 rfl⟩

/-- C7: a payload of exactly MAX_MESSAGE_SIZE bytes passes the size check on
both the local send path (dispatch proceeds to `execSend`) and the inbound
peer path (the record proceeds to routing); a payload one byte over is
rejected: locally with the size-error reply and otherwise unchanged state,
and from a peer by dropping the record with the state fully unchanged. -/
theorem C7_size_boundary (dt : String → String → String)
    (dec : List Nat → Option WireMsg) (s : DaemonState) (r : Nat)
    (c rk t senderId : String) (p : PeerState) (m data : List Nat)
    (now ts : Nat) :
    (m.length = MAX_MESSAGE_SIZE →
      step dt dec s (Event.send r c m now) = execSend s r c m now) ∧
    (data.length = MAX_MESSAGE_SIZE → lookupA s.peers rk = some p →
      onPeerMsg s rk (WireMsg.msg t data senderId ts) =
        routeInbound s rk t data senderId ts) ∧
    (m.length = MAX_MESSAGE_SIZE + 1 →
      step dt dec s (Event.send r c m now) =
        { s with replies := s.replies ++ [(r, Reply.err "Message too large (max 256KB)")] }) ∧
    (data.length = MAX_MESSAGE_SIZE + 1 →
      onPeerMsg s rk (WireMsg.msg t data senderId ts) = s) := by
  refine ⟨fun h => ?_, fun h hp => ?_, fun h => ?_, fun h => ?_⟩
  · simp [step, h]
  · simp [onPeerMsg, hp, h]
  · simp [step, h, MAX_MESSAGE_SIZE]
  · cases hp : lookupA s.peers rk with
    | none => simp [onPeerMsg, hp]
    | some p' => simp [onPeerMsg, hp, h, MAX_MESSAGE_SIZE]

/-- C7 witness: with a 262144-byte payload the send on `sRoom` proceeds to
the normal path, and with a 262145-byte payload it is rejected with the size
error; the peer path at the same sizes routes and drops respectively. -/
theorem C7_size_boundary_witness :
    (step dt0 dec0 sRoom (Event.send 4 "room" (List.replicate 262144 0) 7) =
      execSend sRoom 4 "room" (List.replicate 262144 0) 7) ∧
    (step dt0 dec0 sRoom (Event.send 4 "room" (List.replicate 262145 0) 7) =
      { sRoom with
          replies := sRoom.replies ++ [(4, Reply.err "Message too large (max 256KB)")] }) ∧
    (onPeerMsg sRoom "pk" (WireMsg.msg "room/s" (List.replicate 262145 0) "a" 7) = sRoom) :=
  ⟨(C7_size_boundary dt0 dec0 sRoom 4 "room" "pk" "room/s" "a"
      { writable := true, channels := [], buf := [], knownTopics := none }
      (List.replicate 262144 0) [] 7 7).1
      (by rw [List.length_replicate]; norm_num [MAX_MESSAGE_SIZE]),
   (C7_size_boundary dt0 dec0 sRoom 4 "room" "pk" "room/s" "a"
      { writable := true, channels := [], buf := [], knownTopics := none }
      (List.replicate 262145 0) [] 7 7).2.2.1
      (by rw [List.length_replicate]; norm_num [MAX_MESSAGE_SIZE]),
   (C7_size_boundary dt0 dec0 sRoom 4 "room" "pk" "room/s" "a"
      { writable := true, channels := [], buf := [], knownTopics := none }
      [] (List.replicate 262145 0) 7 7).2.2.2
      (by rw [List.length_replicate]; norm_num [MAX_MESSAGE_SIZE])⟩

theorem lookupA_delA_self {α : Type} (l : List (String × α)) (k : String) :
    lookupA (delA l k) k = none := by
  induction l with
  | nil => rfl
  | cons q rest ih =>
    obtain ⟨k', v⟩ := q
    by_cases hk : k' = k
    · simpa [delA, hk] using ih
    · simpa [delA, lookupA, hk] using ih

theorem lookupA_delA_ne {α : Type} (l : List (String × α)) (k k' : String)
    (h : k' ≠ k) : lookupA (delA l k) k' = lookupA l k' := by
  induction l with
  | nil => rfl
  | cons q rest ih =>
    obtain ⟨k'', v⟩ := q
    by_cases hk : k'' = k
    · subst hk
      simp [delA, lookupA, Ne.symm h, ih]
    · by_cases hk' : k'' = k'
      · subst hk'
        simp [delA, lookupA, hk, h]
      · simp [delA, lookupA, hk, hk', ih]

/-- C9: the two size protections are distinct in effect.  A single oversized
msg record from a known peer is dropped with the whole state unchanged — the
connection stays and any later record from the same peer is processed exactly
as if the oversized one had never arrived.  The peer's unparsed inbound
buffer exceeding its bound instead terminates that one connection: the data
handler runs the close path, which deletes the Peer entry and strips the peer
from every channel's matched set while every other peer entry and every
channel's name, buffer and waiters are untouched. -/
theorem C9_two_protections (dt : String → String → String)
    (dec : List Nat → Option WireMsg) (s : DaemonState)
    (rk t senderId : String) (p : PeerState) (chunk data : List Nat)
    (ts : Nat) (m2 : WireMsg) (hp : lookupA s.peers rk = some p) :
    (data.length > MAX_MESSAGE_SIZE →
      onPeerMsg s rk (WireMsg.msg t data senderId ts) = s ∧
      onPeerMsg (onPeerMsg s rk (WireMsg.msg t data senderId ts)) rk m2 =
        onPeerMsg s rk m2) ∧
    ((p.buf ++ chunk).length > MAX_PEER_BUFFER →
      step dt dec s (Event.peerData rk chunk) = closePeer s rk ∧
      lookupA (closePeer s rk).peers rk = none ∧
      (∀ rk', rk' ≠ rk →
        lookupA (closePeer s rk).peers rk' = lookupA s.peers rk') ∧
      (closePeer s rk).channels.map (fun q => (q.1, q.2.messages, q.2.waiters)) =
        s.channels.map (fun q => (q.1, q.2.messages, q.2.waiters)) ∧
      (∀ q ∈ (closePeer s rk).channels, rk ∉ q.2.peers)) := by
  constructor
  · intro hbig
    have hdrop : onPeerMsg s rk (WireMsg.msg t data senderId ts) = s := by
      simp [onPeerMsg, hp, hbig]
    exact ⟨hdrop, by rw [hdrop]⟩
  · intro hover
    refine ⟨?_, lookupA_delA_self s.peers rk, fun rk' h => lookupA_delA_ne s.peers rk rk' h, ?_, ?_⟩
    · simp [step, onPeerData, hp, hover]
      intro hle
      rw [List.length_append] at hover
      omega
    · simp [closePeer, List.map_map]
    · intro q hq
      simp [closePeer] at hq
      obtain ⟨a, b, _, hab⟩ := hq
      subst hab
      simp

/-- A concrete daemon state with channel "room" and one connected peer "pk",
used to instantiate hypotheses of the claim theorems. -/
def sPeer : DaemonState :=
  run dt0 dec0 (initState "d") [Event.join 0 "room" "s", Event.peerConnect "pk"]

/-- The peer record held by `sPeer` for "pk". -/
def pPk : PeerState :=
  { writable := true, channels := [], buf := [], knownTopics := none }

/-- C9 witness: on the concrete daemon `sPeer`, a 262145-byte msg record from
peer "pk" is dropped with the state unchanged, while a chunk blowing the
1 MB inbound buffer terminates the connection via the close path. -/
theorem C9_two_protections_witness :
    onPeerMsg sPeer "pk" (WireMsg.msg "room/s" (List.replicate 262145 0) "a" 7) = sPeer ∧
    step dt0 dec0 sPeer (Event.peerData "pk" (List.replicate 1048577 0)) =
      closePeer sPeer "pk" :=
  ⟨((C9_two_protections dt0 dec0 sPeer "pk" "room/s" "a" pPk []
        (List.replicate 262145 0) 7 WireMsg.other rfl).1
      (by rw [List.length_replicate]; norm_num [MAX_MESSAGE_SIZE])).1,
   ((C9_two_protections dt0 dec0 sPeer "pk" "room/s" "a" pPk
        (List.replicate 1048577 0) [] 7 WireMsg.other rfl).2
      (by rw [show pPk.buf = [] from rfl, List.nil_append, List.length_replicate]
          norm_num [MAX_PEER_BUFFER])).1⟩

/-! ### The buffer/waiters exclusion invariant (C2) -/

/-- The per-channel invariant: the pending-message buffer and the
waiting-reader queue are never both non-empty. -/
def ChInv (ch : Channel) : Prop := ch.messages = [] ∨ ch.waiters = []

/-- The invariant over a channel registry. -/
def InvC (l : List (String × Channel)) : Prop := ∀ q ∈ l, ChInv q.2

/-- The invariant over a daemon state. -/
abbrev Inv (s : DaemonState) : Prop := InvC s.channels

theorem foldl_pres {β : Type} (g : DaemonState → β → DaemonState)
    (P : DaemonState → Prop) (h : ∀ st x, P st → P (g st x)) :
    ∀ (l : List β) (st : DaemonState), P st → P (l.foldl g st) := by
  intro l
  induction l with
  | nil => intro st hst; exact hst
  | cons x xs ih => intro st hst; exact ih (g st x) (h st x hst)

theorem mem_setA {α : Type} (l : List (String × α)) (k : String) (v : α)
    (q : String × α) (hq : q ∈ setA l k v) : q ∈ l ∨ q = (k, v) := by
  induction l with
  | nil =>
    simp [setA] at hq
    exact Or.inr hq
  | cons a rest ih =>
    obtain ⟨k', w⟩ := a
    by_cases hk : k' = k
    · simp [setA, hk] at hq
      rcases hq with h1 | h1
      · exact Or.inr (by simp [h1])
      · exact Or.inl (List.mem_cons_of_mem _ h1)
    · simp [setA, hk] at hq
      rcases hq with h1 | h1
      · exact Or.inl (by simp [h1])
      · rcases ih h1 with h2 | h2
        · exact Or.inl (List.mem_cons_of_mem _ h2)
        · exact Or.inr h2

theorem mem_delA {α : Type} (l : List (String × α)) (k : String)
    (q : String × α) (hq : q ∈ delA l k) : q ∈ l := by
  induction l with
  | nil => simp [delA] at hq
  | cons a rest ih =>
    obtain ⟨k', w⟩ := a
    by_cases hk : k' = k
    · simp [delA, hk] at hq
      exact List.mem_cons_of_mem _ (ih hq)
    · simp [delA, hk] at hq
      rcases hq with h1 | h1
      · exact List.mem_cons.mpr (Or.inl h1)
      · exact List.mem_cons_of_mem _ (ih h1)

theorem mem_updA {α : Type} (l : List (String × α)) (k : String) (f : α → α)
    (q : String × α) (hq : q ∈ updA l k f) :
    q ∈ l ∨ ∃ v, lookupA l k = some v ∧ q = (k, f v) := by
  induction l with
  | nil => simp [updA] at hq
  | cons a rest ih =>
    obtain ⟨k', w⟩ := a
    by_cases hk : k' = k
    · subst hk
      simp [updA] at hq
      rcases hq with h1 | h1
      · exact Or.inr ⟨w, by simp [lookupA], h1⟩
      · exact Or.inl (List.mem_cons_of_mem _ h1)
    · simp [updA, hk] at hq
      rcases hq with h1 | h1
      · exact Or.inl (by simp [h1])
      · rcases ih h1 with h2 | h2
        · exact Or.inl (List.mem_cons_of_mem _ h2)
        · obtain ⟨v, hv, hqv⟩ := h2
          exact Or.inr ⟨v, by simpa [lookupA, hk] using hv, hqv⟩

theorem mem_updByUid (l : List (String × Channel)) (u : Nat)
    (f : Channel → Channel) (q : String × Channel) (hq : q ∈ updByUid u f l) :
    q ∈ l ∨ ∃ p ∈ l, q = (p.1, f p.2) := by
  induction l with
  | nil => simp [updByUid] at hq
  | cons a rest ih =>
    obtain ⟨n, ch⟩ := a
    by_cases hu : ch.uid = u
    · simp [updByUid, hu] at hq
      rcases hq with h1 | h1
      · exact Or.inr ⟨(n, ch), List.mem_cons_self _ _, h1⟩
      · exact Or.inl (List.mem_cons_of_mem _ h1)
    · simp [updByUid, hu] at hq
      rcases hq with h1 | h1
      · exact Or.inl (by simp [h1])
      · rcases ih h1 with h2 | h2
        · exact Or.inl (List.mem_cons_of_mem _ h2)
        · obtain ⟨p, hp, hqp⟩ := h2
          exact Or.inr ⟨p, List.mem_cons_of_mem _ hp, hqp⟩

theorem invC_matchTopics (rk : String) (kts : List String)
    (l : List (String × Channel)) (h : InvC l) :
    InvC (matchTopics rk kts l).1 := by
  induction l with
  | nil => intro q hq; simp [matchTopics] at hq
  | cons a rest ih =>
    obtain ⟨n, ch⟩ := a
    have hch : ChInv ch := h (n, ch) (List.mem_cons_self _ _)
    have hrest : InvC rest := fun q hq => h q (List.mem_cons_of_mem _ hq)
    intro q hq
    simp only [matchTopics] at hq
    split at hq
    · rcases List.mem_cons.mp hq with h1 | h1
      · subst h1; exact hch
      · exact ih hrest q h1
    · rcases List.mem_cons.mp hq with h1 | h1
      · subst h1; exact hch
      · exact ih hrest q h1

theorem inv_applyMatches (s : DaemonState) (rk : String) (kts : List String)
    (h : Inv s) : Inv (applyMatches s rk kts) :=
  invC_matchTopics rk kts s.channels h

theorem inv_reannounceOne (hello : WireMsg) (s : DaemonState) (rk : String)
    (h : Inv s) : Inv (reannounceOne hello s rk) := by
  unfold reannounceOne
  cases hp : lookupA s.peers rk with
  | none => exact h
  | some p =>
    cases hkt : p.knownTopics with
    | none =>
      by_cases hw : p.writable <;> simp [hkt, hw] <;> exact h
    | some kts =>
      by_cases hw : p.writable <;> simp [hkt, hw]
      · exact inv_applyMatches _ rk kts h
      · exact inv_applyMatches _ rk kts h

theorem inv_reannounce (s : DaemonState) (h : Inv s) : Inv (reannounce s) := by
  unfold reannounce
  exact foldl_pres _ Inv (fun st x hst => inv_reannounceOne _ st x hst) _ s h

theorem inv_joinChannel (dt : String → String → String) (s : DaemonState)
    (name secret : String) (h : Inv s) : Inv (joinChannel dt s name secret) := by
  unfold joinChannel
  split
  · exact h
  · apply inv_reannounce
    intro q hq
    rcases mem_setA s.channels name _ q hq with h1 | h1
    · exact h q h1
    · subst h1; exact Or.inl rfl

theorem inv_leaveChannel (s : DaemonState) (name : String) (h : Inv s) :
    Inv (leaveChannel s name) := by
  unfold leaveChannel
  cases hl : lookupA s.channels name with
  | none => exact h
  | some ch => exact fun q hq => h q (mem_delA s.channels name q hq)

theorem sendMsg_channels (s : DaemonState) (c : String) (m : List Nat)
    (now : Nat) (s' : DaemonState) (n : Nat)
    (h : sendMsg s c m now = some (s', n)) : s'.channels = s.channels := by
  unfold sendMsg at h
  cases hl : lookupA s.channels c with
  | none => rw [hl] at h; simp at h
  | some ch =>
    rw [hl] at h
    simp at h
    rw [← h.1]

theorem inv_execSend (s : DaemonState) (r : Nat) (c : String) (m : List Nat)
    (now : Nat) (h : Inv s) : Inv (execSend s r c m now) := by
  simp only [execSend]
  split
  · exact h
  · rename_i sc hsc
    show InvC sc.1.channels
    rw [sendMsg_channels s c m now sc.1 sc.2 (by rw [hsc])]
    exact h

theorem inv_execRead (s : DaemonState) (r : Nat) (c : String) (wait : Bool)
    (tmo : Option Nat) (h : Inv s) : Inv (execRead s r c wait tmo) := by
  simp only [execRead]
  split
  · exact h
  · rename_i ch hl
    split
    · intro q hq
      rcases mem_updA s.channels c _ q hq with h1 | h1
      · exact h q h1
      · obtain ⟨v, _, hqv⟩ := h1
        rw [hqv]
        exact Or.inl rfl
    · rename_i hcond
      intro q hq
      rcases mem_updA s.channels c _ q hq with h1 | h1
      · exact h q h1
      · obtain ⟨v, hv, hqv⟩ := h1
        rw [hqv]
        rw [hl] at hv
        cases hv
        have hm : ch.messages = [] := by
          rcases not_or.mp hcond with ⟨h1, _⟩
          simpa using h1
        exact Or.inl hm

theorem invC_routeFirst (topic : String) (entry : MessageEntry)
    (l : List (String × Channel)) (h : InvC l) :
    InvC (routeFirst topic entry l).1 := by
  induction l with
  | nil => intro q hq; simp [routeFirst] at hq
  | cons a rest ih =>
    obtain ⟨n, ch⟩ := a
    have hch : ChInv ch := h (n, ch) (List.mem_cons_self _ _)
    have hrest : InvC rest := fun q hq => h q (List.mem_cons_of_mem _ hq)
    intro q hq
    simp only [routeFirst] at hq
    split at hq
    · rename_i htop
      cases hw : ch.waiters with
      | cons w ws =>
        rw [hw] at hq
        rcases List.mem_cons.mp hq with h1 | h1
        · subst h1
          rcases hch with h2 | h2
          · exact Or.inl h2
          · rw [hw] at h2; cases h2
        · exact hrest q h1
      | nil =>
        rw [hw] at hq
        rcases List.mem_cons.mp hq with h1 | h1
        · subst h1; exact Or.inr rfl
        · exact hrest q h1
    · rcases List.mem_cons.mp hq with h1 | h1
      · subst h1; exact hch
      · exact ih hrest q h1

theorem inv_routeInbound (s : DaemonState) (rk topic : String)
    (data : List Nat) (senderId : String) (ts : Nat) (h : Inv s) :
    Inv (routeInbound s rk topic data senderId ts) := by
  simp only [routeInbound]
  split
  · exact invC_routeFirst _ _ s.channels h
  · exact invC_routeFirst _ _ s.channels h

theorem inv_onPeerMsg (s : DaemonState) (rk : String) (m : WireMsg)
    (h : Inv s) : Inv (onPeerMsg s rk m) := by
  simp only [onPeerMsg]
  split
  · exact h
  · split
    · exact inv_applyMatches _ rk _ h
    · split
      · exact h
      · exact inv_routeInbound s rk _ _ _ _ h
    · exact h

theorem inv_processLines (dec : List Nat → Option WireMsg) (rk : String)
    (lines : List (List Nat)) :
    ∀ s : DaemonState, Inv s → Inv (processLines dec rk s lines) := by
  induction lines with
  | nil => intro s h; exact h
  | cons line rest ih =>
    intro s h
    unfold processLines
    split
    · exact ih s h
    · split
      · exact ih _ (inv_onPeerMsg s rk _ h)
      · exact ih s h

theorem inv_closePeer (s : DaemonState) (rk : String) (h : Inv s) :
    Inv (closePeer s rk) := by
  intro q hq
  simp [closePeer] at hq
  obtain ⟨a, b, hab, hq'⟩ := hq
  subst hq'
  exact h (a, b) hab

theorem inv_onPeerData (dec : List Nat → Option WireMsg) (s : DaemonState)
    (rk : String) (chunk : List Nat) (h : Inv s) :
    Inv (onPeerData dec s rk chunk) := by
  simp only [onPeerData]
  split
  · exact h
  · split
    · exact inv_closePeer s rk h
    · exact inv_processLines dec rk _ _ h

theorem inv_fireTimer (s : DaemonState) (r : Nat) (h : Inv s) :
    Inv (fireTimer s r) := by
  simp only [fireTimer]
  split
  · exact h
  · rename_i t ht
    intro q hq
    rcases mem_updByUid s.channels t.chUid _ q hq with h1 | h1
    · exact h q h1
    · obtain ⟨p, hp, hqp⟩ := h1
      rw [hqp]
      rcases h p hp with h2 | h2
      · exact Or.inl h2
      · exact Or.inr (by simp [h2])

theorem inv_step (dt : String → String → String)
    (dec : List Nat → Option WireMsg) (s : DaemonState) (e : Event)
    (h : Inv s) : Inv (step dt dec s e) := by
  cases e with
  | join r name secret => exact inv_joinChannel dt s name secret h
  | send r c m now =>
    simp only [step]
    split
    · exact h
    · exact inv_execSend s r c m now h
  | read r c wait tmo => exact inv_execRead s r c wait tmo h
  | leave r name => exact inv_leaveChannel s name h
  | peerConnect rk => exact h
  | peerData rk chunk => exact inv_onPeerData dec s rk chunk h
  | peerClose rk => exact inv_closePeer s rk h
  | setWritable rk w => exact h
  | timerFire r => exact inv_fireTimer s r h

/-- C2: in every reachable daemon state — any event sequence run from the
fresh daemon, covering inbound peer routing, read handling, joins, leaves,
timer firings, and peer lifecycle — no channel ever has a non-empty
pending-message buffer and a non-empty waiting-reader queue at the same
time: every inbound entry goes to exactly the oldest waiter or, only when no
waiter exists, to the buffer, and a waiter is registered only on an empty
buffer. -/
theorem C2_buffer_waiter_exclusion (dt : String → String → String)
    (dec : List Nat → Option WireMsg) (id : String) (evs : List Event) :
    ∀ q ∈ (run dt dec (initState id) evs).channels,
      ¬(q.2.messages ≠ [] ∧ q.2.waiters ≠ []) := by
  have h : Inv (run dt dec (initState id) evs) :=
    foldl_pres (step dt dec) Inv (inv_step dt dec) evs (initState id)
      (fun q hq => absurd hq (List.not_mem_nil q))
  intro q hq hcontra
  rcases h q hq with h1 | h1
  · exact hcontra.1 h1
  · exact hcontra.2 h1

/-- C2 witness: the invariant instantiated on the concrete reachable state
that has joined "room": its channel record never has both queues non-empty. -/
theorem C2_buffer_waiter_exclusion_witness :
    ¬(("room", chRoom).2.messages ≠ [] ∧ ("room", chRoom).2.waiters ≠ []) :=
  C2_buffer_waiter_exclusion dt0 dec0 "d" [Event.join 0 "room" "s"]
    ("room", chRoom) (by decide)

/-! ### Lemmas for the read-timeout race (C3) -/

theorem findTimer_of_fresh (r : Nat) (ts : List Timer)
    (h : ∀ t ∈ ts, t.reqId ≠ r) : findTimer r ts = none := by
  induction ts with
  | nil => rfl
  | cons t rest ih =>
    have ht : t.reqId ≠ r := h t (List.mem_cons_self _ _)
    simp [findTimer, ht]
    exact ih (fun u hu => h u (List.mem_cons_of_mem _ hu))

theorem findTimer_append_fresh (r : Nat) (ts : List Timer) (T : Timer)
    (hT : T.reqId = r) (h : ∀ t ∈ ts, t.reqId ≠ r) :
    findTimer r (ts ++ [T]) = some T := by
  induction ts with
  | nil => simp [findTimer, hT]
  | cons t rest ih =>
    have ht : t.reqId ≠ r := h t (List.mem_cons_self _ _)
    simp [findTimer, ht]
    exact ih (fun u hu => h u (List.mem_cons_of_mem _ hu))

theorem eraseTimer_append_fresh (r : Nat) (ts : List Timer) (T : Timer)
    (hT : T.reqId = r) (h : ∀ t ∈ ts, t.reqId ≠ r) :
    eraseTimer r (ts ++ [T]) = ts := by
  induction ts with
  | nil => simp [eraseTimer, hT]
  | cons t rest ih =>
    have ht : t.reqId ≠ r := h t (List.mem_cons_self _ _)
    simp [eraseTimer, ht]
    exact ih (fun u hu => h u (List.mem_cons_of_mem _ hu))

theorem updByUid_undo (l : List (String × Channel)) (c : String) (ch : Channel)
    (r : Nat) (hch : lookupA l c = some ch)
    (huid : ∀ q ∈ l, q.2.uid = ch.uid → q = (c, ch)) (hw : ch.waiters = []) :
    updByUid ch.uid (fun x => { x with waiters := x.waiters.filter (fun w => w ≠ r) })
      (updA l c (fun x => { x with waiters := x.waiters ++ [r] })) = l := by
  obtain ⟨ct, cu, cp, cm, cw⟩ := ch
  simp only [] at hw
  subst hw
  induction l with
  | nil => simp [lookupA] at hch
  | cons q rest ih =>
    obtain ⟨k, v⟩ := q
    by_cases hk : k = c
    · subst hk
      simp [lookupA] at hch
      subst hch
      simp [updA, updByUid]
    · simp [lookupA, hk] at hch
      have hvu : v.uid ≠ cu := by
        intro he
        have := huid (k, v) (List.mem_cons_self _ _) he
        exact hk (by simpa using congrArg Prod.fst this)
      have ihr := ih hch (fun q hq hu => huid q (List.mem_cons_of_mem _ hq) hu)
      simp [updA, updByUid, hk, hvu]
      simpa using ihr

theorem routeFirst_buffers (l : List (String × Channel)) (c : String)
    (ch : Channel) (e : MessageEntry) (hch : lookupA l c = some ch)
    (htopic : ∀ q ∈ l, q.2.topicHex = ch.topicHex → q = (c, ch))
    (hw : ch.waiters = []) :
    routeFirst ch.topicHex e l =
      (updA l c (fun x => { x with messages := x.messages ++ [e] }), none) := by
  induction l with
  | nil => simp [lookupA] at hch
  | cons q rest ih =>
    obtain ⟨k, v⟩ := q
    by_cases hk : k = c
    · subst hk
      simp [lookupA] at hch
      subst hch
      simp [routeFirst, updA, hw]
    · simp [lookupA, hk] at hch
      have hvt : v.topicHex ≠ ch.topicHex := by
        intro he
        have := htopic (k, v) (List.mem_cons_self _ _) he
        exact hk (by simpa using congrArg Prod.fst this)
      have ihr := ih hch (fun q hq ht => htopic q (List.mem_cons_of_mem _ hq) ht)
      simp [routeFirst, updA, hk, hvt, ihr]

theorem routeFirst_delivers (l : List (String × Channel)) (c : String)
    (ch : Channel) (e : MessageEntry) (r : Nat) (hch : lookupA l c = some ch)
    (htopic : ∀ q ∈ l, q.2.topicHex = ch.topicHex → q = (c, ch))
    (hw : ch.waiters = []) :
    routeFirst ch.topicHex e
        (updA l c (fun x => { x with waiters := x.waiters ++ [r] })) =
      (l, some r) := by
  obtain ⟨ct, cu, cp, cm, cw⟩ := ch
  simp only [] at hw
  subst hw
  induction l with
  | nil => simp [lookupA] at hch
  | cons q rest ih =>
    obtain ⟨k, v⟩ := q
    by_cases hk : k = c
    · subst hk
      simp [lookupA] at hch
      subst hch
      simp [updA, routeFirst]
    · simp [lookupA, hk] at hch
      have hvt : v.topicHex ≠ ct := by
        intro he
        have := htopic (k, v) (List.mem_cons_self _ _) he
        exact hk (by simpa using congrArg Prod.fst this)
      have ihr := ih hch (fun q hq ht => htopic q (List.mem_cons_of_mem _ hq) ht)
      simp [updA, routeFirst, hk, hvt, ihr]

/-- C3: the blocking-read/timeout race.  On a joined channel with an empty
buffer, a read with wait requested suspends: it sends no reply, registers
the waiter and arms a timer of exactly `(timeout || 30) * 1000` ms (so
30000 ms when no timeout is given).  If no message arrives, the timer firing
resolves the read exactly once with `{ok, messages: []}`, removing both the
waiter and the timer — a message arriving afterwards is buffered, resolving
no waiter.  If a message arrives first, the read is resolved exactly once
with that single entry and the timer is cleared, so the timer firing
afterwards is a no-op: the loser of the race does nothing. -/
theorem C3_read_timeout_race
    (dt : String → String → String) (dec : List Nat → Option WireMsg)
    (s : DaemonState) (r : Nat) (c rk senderId : String)
    (tmo : Option Nat) (p : PeerState) (data : List Nat) (ts : Nat)
    (ch : Channel)
    (hch : lookupA s.channels c = some ch)
    (hempty : ch.messages = [])
    (hw : ch.waiters = [])
    (huid : ∀ q ∈ s.channels, q.2.uid = ch.uid → q = (c, ch))
    (htopic : ∀ q ∈ s.channels, q.2.topicHex = ch.topicHex → q = (c, ch))
    (hfresh : ∀ t ∈ s.timers, t.reqId ≠ r)
    (hpeer : lookupA s.peers rk = some p)
    (hdata : data.length ≤ MAX_MESSAGE_SIZE) :
    (step dt dec s (Event.read r c true tmo)).timers =
        s.timers ++ [{ reqId := r, chUid := ch.uid, duration := timeoutMs tmo }] ∧
    timeoutMs none = 30000 ∧
    (step dt dec s (Event.read r c true tmo)).replies = s.replies ∧
    lookupA (step dt dec s (Event.read r c true tmo)).channels c =
        some { ch with waiters := [r] } ∧
    step dt dec (step dt dec s (Event.read r c true tmo)) (Event.timerFire r) =
        { s with replies := s.replies ++ [(r, Reply.okMessages [])] } ∧
    (∀ e : MessageEntry,
      routeFirst ch.topicHex e
          (step dt dec (step dt dec s (Event.read r c true tmo))
            (Event.timerFire r)).channels =
        (updA s.channels c (fun x => { x with messages := x.messages ++ [e] }), none)) ∧
    onPeerMsg (step dt dec s (Event.read r c true tmo)) rk
        (WireMsg.msg ch.topicHex data senderId ts) =
      { s with replies := s.replies ++
          [(r, Reply.okMessages [mkEntry rk senderId data ts])] } ∧
    step dt dec (onPeerMsg (step dt dec s (Event.read r c true tmo)) rk
        (WireMsg.msg ch.topicHex data senderId ts)) (Event.timerFire r) =
      onPeerMsg (step dt dec s (Event.read r c true tmo)) rk
        (WireMsg.msg ch.topicHex data senderId ts) := by
  have hs1 : step dt dec s (Event.read r c true tmo) =
      { s with
          timers := s.timers ++
            [{ reqId := r, chUid := ch.uid, duration := timeoutMs tmo }],
          channels := updA s.channels c
            (fun x => { x with waiters := x.waiters ++ [r] }) } := by
    simp [step, execRead, hch, hempty]
  have hfind : findTimer r (s.timers ++
      [{ reqId := r, chUid := ch.uid, duration := timeoutMs tmo }]) =
      some { reqId := r, chUid := ch.uid, duration := timeoutMs tmo } :=
    findTimer_append_fresh r s.timers _ rfl hfresh
  have herase : eraseTimer r (s.timers ++
      [{ reqId := r, chUid := ch.uid, duration := timeoutMs tmo }]) = s.timers :=
    eraseTimer_append_fresh r s.timers _ rfl hfresh
  have hundo := updByUid_undo s.channels c ch r hch huid hw
  simp only [ne_eq, decide_not] at hundo
  have hs2 : step dt dec (step dt dec s (Event.read r c true tmo))
      (Event.timerFire r) =
      { s with replies := s.replies ++ [(r, Reply.okMessages [])] } := by
    rw [hs1]
    simp [step, fireTimer, hfind, herase, hundo]
  have hnd : ¬ data.length > MAX_MESSAGE_SIZE := by omega
  have hroute := routeFirst_delivers s.channels c ch
    (mkEntry rk senderId data ts) r hch htopic hw
  have hE : onPeerMsg (step dt dec s (Event.read r c true tmo)) rk
      (WireMsg.msg ch.topicHex data senderId ts) =
      { s with replies := s.replies ++
          [(r, Reply.okMessages [mkEntry rk senderId data ts])] } := by
    rw [hs1]
    simp [onPeerMsg, hpeer, hnd, routeInbound, hroute, herase]
  refine ⟨?_, by norm_num [timeoutMs], ?_, ?_, hs2, ?_, hE, ?_⟩
  · rw [hs1]
  · rw [hs1]
  · rw [hs1]
    have hlk := lookupA_updA_self s.channels c
      (fun x => { x with waiters := x.waiters ++ [r] }) ch hch
    rw [hlk]
    simp [hw]
  · intro e
    rw [hs2]
    exact routeFirst_buffers s.channels c ch e hch htopic hw
  · rw [hE]
    simp [step, fireTimer, findTimer_of_fresh r s.timers hfresh]

/-- C3 witness: on the concrete daemon `sPeer`, a waiting read (request 5)
of "room" with the default timeout followed by its timer firing resolves the
read with an empty list and restores the daemon to `sPeer` plus that one
reply. -/
theorem C3_read_timeout_race_witness :
    step dt0 dec0 (step dt0 dec0 sPeer (Event.read 5 "room" true none))
        (Event.timerFire 5) =
      { sPeer with replies := sPeer.replies ++ [(5, Reply.okMessages [])] } :=
  (C3_read_timeout_race dt0 dec0 sPeer 5 "room" "pk" "alice" none pPk
    [104, 105] 7 chRoom rfl rfl rfl (by decide) (by decide) (by decide) rfl
    (by decide)).2.2.2.2.1

end Walkie
